import Mathlib

set_option maxHeartbeats 1000000

/-!
Shallow embedding of the download orchestration core of a Qt-archive
fetching tool (sources: qti.py and qti_util.py).

Modelling conventions:
* A filesystem is a map from path strings to optional file contents.
* Python floats (request options, worker counts, delays) are rationals.
* Python `int()` is truncation toward zero (`pyInt`).
* Network behaviour is an explicit oracle passed to each function:
  for `retrieve_URL` an oracle mapping (URL, timeout, attempt index) to
  a success content or a raised error, so that retries are observable.
* The SHA-256 digest function is an explicit parameter `hash`;
  the source only compares digest strings, never inspects them.
* Exceptions become explicit outcome constructors; `raise` propagates
  them along the returned value.
* Worker-pool timing is explicit: every task carries the poll tick at
  which it becomes ready, and the coordinator polls once per tick.
-/

/-- Python `int()` on a rational: truncation toward zero. -/
def pyInt (q : ℚ) : ℤ := Int.tdiv q.num (Int.ofNat q.den)

/-- Prefix test on character lists. -/
def chPre : List Char → List Char → Bool
  | [], _ => true
  | _ :: _, [] => false
  | a :: as, b :: bs => (a == b) && chPre as bs

/-- Contiguous-substring test on character lists. -/
def chSub (needle : List Char) : List Char → Bool
  | [] => chPre needle []
  | b :: bs => chPre needle (b :: bs) || chSub needle bs

/-- Whether string `n` occurs contiguously inside string `h`. -/
def strHasSub (n h : String) : Bool := chSub n.data h.data

/-- Splitting a character list at every occurrence of `c`
(Python `str.split` with a single separator). -/
def splitChar (c : Char) : List Char → List (List Char)
  | [] => [[]]
  | a :: as =>
    let r := splitChar c as
    if a = c then [] :: r
    else match r with
      | [] => [[a]]
      | g :: gs => (a :: g) :: gs

/-- A flat filesystem: maps a path to the content stored there, if any. -/
def FileSys : Type := String → Option String

/-- Writing one file (creating or overwriting). -/
def setF (fs : FileSys) (p : String) (c : String) : FileSys :=
  fun q => if q = p then some c else fs q

instance {E R : Type} [DecidableEq E] [DecidableEq R] : DecidableEq (Except E R) := fun a b =>
  match a, b with
  | .ok x, .ok y => by
      cases decEq x y with
      | isTrue h => exact isTrue (by rw [h])
      | isFalse h => exact isFalse (by intro hc; cases hc; exact h rfl)
  | .ok _, .error _ => isFalse (by intro hc; cases hc)
  | .error _, .ok _ => isFalse (by intro hc; cases hc)
  | .error x, .error y => by
      cases decEq x y with
      | isTrue h => exact isTrue (by rw [h])
      | isFalse h => exact isFalse (by intro hc; cases hc; exact h rfl)

/-- Hash-algorithm name constant of qti_util.py. -/
def HASH_ALG : String := "sha256"

/-! ### Retrieval client: qti_util.retrieve_URL -/

/-- One observable event of `retrieve_URL`: a network attempt (with its
zero-based index) or a fixed-length sleep between attempts. -/
inductive RetEvent where
  | attempt (n : Nat)
  | sleep (delay : ℚ)
deriving DecidableEq

/-- How a call to `retrieve_URL` ends: a Python return value (`none`
models Python `None`, reached when the attempt loop never runs;
`some ""` models the file-written case, whose `contents` stays `""`;
`some c` models an in-memory body) or a raised exception. -/
inductive RetResult where
  | returned (v : Option String)
  | raised (e : String)
deriving DecidableEq

/-- Recognizer for network-attempt events. -/
def isAttempt : RetEvent → Bool
  | .attempt _ => true
  | .sleep _ => false

/-- Number of network attempts in an event trace. -/
def attemptsIn (evs : List RetEvent) : Nat := evs.countP isAttempt

/-- The `for attempt in range(attempts)` loop of `retrieve_URL`
(qti_util.py lines 82-95). `net URL timeout i` is the outcome of the
`urllib.request.urlopen` block on attempt `i`; on success with a
non-empty `filepath` the response is streamed to that file. On failure
the loop re-raises on the last attempt and otherwise sleeps
`attempt_delay_s` and retries. -/
def retryLoop (net : String → ℚ → Nat → Except String String) (URL : String) (timeout_s : ℚ)
    (filepath : String) (attempt_delay_s : ℚ) (fs : FileSys) :
    Nat → Nat → List RetEvent × FileSys × RetResult
  | 0, _ => ([], fs, .returned none)
  | rem + 1, i =>
    match net URL timeout_s i with
    | .ok c =>
      if filepath ≠ "" then ([.attempt i], setF fs filepath c, .returned (some ""))
      else ([.attempt i], fs, .returned (some c))
    | .error e =>
      match rem with
      | 0 => ([.attempt i], fs, .raised e)
      | rem' + 1 =>
        (.attempt i :: .sleep attempt_delay_s ::
            (retryLoop net URL timeout_s filepath attempt_delay_s fs (rem' + 1) (i + 1)).1,
         (retryLoop net URL timeout_s filepath attempt_delay_s fs (rem' + 1) (i + 1)).2)

/-- Embedding of qti_util.retrieve_URL (lines 79-95). `opts` is the
`(timeout_s, attempt_delay_s, attempts)` triple of floats; `attempts`
is truncated with `int()` before the loop. -/
def retrieve_URL (net : String → ℚ → Nat → Except String String) (URL filepath : String)
    (opts : ℚ × ℚ × ℚ) (fs : FileSys) : List RetEvent × FileSys × RetResult :=
  retryLoop net URL opts.1 filepath opts.2.1 fs (pyInt opts.2.2).toNat 0

/-! ### Task pool executor: qti_util.pool_apply -/

/-- One asynchronous task: the poll tick at which it becomes ready and
the result it then holds (a value, or the exception it raised). -/
structure TaskSpec (E R : Type) where
  finish : Nat
  outcome : Except E R

instance {E R : Type} [DecidableEq E] [DecidableEq R] : DecidableEq (TaskSpec E R) :=
  fun a b =>
  match a, b with
  | ⟨f1, o1⟩, ⟨f2, o2⟩ =>
    match decEq f1 f2, decEq o1 o2 with
    | isTrue h1, isTrue h2 => isTrue (by rw [h1, h2])
    | isFalse h1, _ => isFalse (by intro hc; cases hc; exact h1 rfl)
    | _, isFalse h2 => isFalse (by intro hc; cases hc; exact h2 rfl)

/-- Console output of `pool_apply`: a periodic progress line (ready and
total counts) or the final completion line. -/
inductive PrintEvent where
  | progress (ready total : Nat)
  | completedAll (total : Nat)
deriving DecidableEq

/-- How the polling loop of `pool_apply` ends. `fuelOut` is an artifact
of the fuelled recursion; with the fuel `pool_apply` supplies it is
unreachable. -/
inductive LoopOut (E : Type) where
  | completed
  | raised (e : E)
  | fuelOut
deriving DecidableEq

/-- The `for task in tasks` readiness scan of one poll (qti_util.py
lines 117-122): counts ready tasks in input order, re-raising the
exception of the first ready unsuccessful task. -/
def countReady {E R : Type} : List (TaskSpec E R) → Nat → Except E Nat
  | [], _ => .ok 0
  | task :: rest, t =>
    if task.finish ≤ t then
      match task.outcome with
      | .error e => .error e
      | .ok _ => (countReady rest t).map (· + 1)
    else countReady rest t

/-- Largest finish tick of a task list (0 when empty). -/
def maxFinish {E R : Type} (tasks : List (TaskSpec E R)) : Nat :=
  tasks.foldr (fun task m => max task.finish m) 0

/-- The `while ready_tasks < total_tasks` polling loop of `pool_apply`
(qti_util.py lines 113-126). Each iteration sleeps one tick (0.25 s),
rescans readiness, and prints a progress line once the accumulated
`no_print_s` (0.25 s times the iterations since the last print) reaches
`print_delay_s`. Arguments after `print_delay_s`: remaining fuel,
current tick, iterations since the last print, and the ready count the
`while` condition sees. -/
def poolLoop {E R : Type} (tasks : List (TaskSpec E R)) (print_delay_s : ℚ) :
    Nat → Nat → Nat → Nat → List PrintEvent × LoopOut E
  | fuel, t, since, prevReady =>
    if prevReady < tasks.length then
      match fuel with
      | 0 => ([], .fuelOut)
      | fuel' + 1 =>
        match countReady tasks (t + 1) with
        | .error e => ([], .raised e)
        | .ok ready =>
          if print_delay_s ≤ mkRat (Int.ofNat (since + 1)) 4 then
            (.progress ready tasks.length ::
                (poolLoop tasks print_delay_s fuel' (t + 1) 0 ready).1,
             (poolLoop tasks print_delay_s fuel' (t + 1) 0 ready).2)
          else poolLoop tasks print_delay_s fuel' (t + 1) (since + 1) ready
    else ([], .completed)

/-- Observable behaviour of one `pool_apply` call: how many worker
processes the pool was constructed with, everything printed, and the
returned result list (or the re-raised task exception); `none` marks
the unreachable fuel-out case. -/
structure PoolRun (E R : Type) where
  spawnedWorkers : Nat
  printed : List PrintEvent
  result : Option (Except E (List R))

/-- Embedding of qti_util.pool_apply (lines 103-129). A pool of
`int(workers_num)` workers is constructed up front; the polling loop
runs; on completion the results are collected in input order
(`[task.get() for task in tasks]`) and the completion line is printed. -/
def pool_apply {E R : Type} (tasks : List (TaskSpec E R)) (workersRaw print_delay_s : ℚ) :
    PoolRun E R :=
  let workers := (pyInt workersRaw).toNat
  let lp := poolLoop tasks print_delay_s (maxFinish tasks + 1) 0 0 0
  match lp.2 with
  | .completed =>
    { spawnedWorkers := workers, printed := lp.1 ++ [.completedAll tasks.length],
      result := some (tasks.mapM TaskSpec.outcome) }
  | .raised e => { spawnedWorkers := workers, printed := lp.1, result := some (.error e) }
  | .fuelOut => { spawnedWorkers := workers, printed := lp.1, result := none }

/-! ### Cache store: qti_util.dump_JSON -/

/-- A filesystem path split into its directory components and its final
file name, mirroring the `os.path.dirname` / basename decomposition the
source relies on. -/
structure PPath where
  dir : List String
  base : String
deriving DecidableEq

/-- A filesystem with directories: file contents per path, plus the set
of directories known to exist. -/
structure PFS where
  files : PPath → Option String
  dirs : List (List String)

/-- Writing one file. -/
def pfsSet (fs : PFS) (p : PPath) (c : String) : PFS :=
  { fs with files := fun q => if q = p then some c else fs.files q }

/-- Removing one file. -/
def pfsDel (fs : PFS) (p : PPath) : PFS :=
  { fs with files := fun q => if q = p then none else fs.files q }

/-- The `os.makedirs(out_dir, exist_ok=True)` step: registers every
intermediate directory of `d`. -/
def mkdirsAll (fs : PFS) (d : List String) : PFS :=
  { fs with dirs := (List.range d.length).map (fun k => d.take (k + 1)) ++ fs.dirs }

/-- The temporary-file path `out_file + ".tmp"` used by `dump_JSON`:
same directory, suffixed base name. -/
def tmpOf (p : PPath) : PPath := { dir := p.dir, base := p.base ++ ".tmp" }

/-- Every intermediate filesystem state of one qti_util.dump_JSON call
(lines 65-72) on the already-serialized payload `ser`: the initial
state, the state after `os.makedirs`, one state after each prefix of
`ser` has been written to the temporary file (the `json.dump` stream
may stop anywhere), and the final state after `os.replace` atomically
renames the temporary file over `out`. -/
def dump_JSON_states (fs : PFS) (ser : String) (out : PPath) : List PFS :=
  let fs0 := if out.dir = [] then fs else mkdirsAll fs out.dir
  let writes := (List.range (ser.length + 1)).map
    (fun k => pfsSet fs0 (tmpOf out) (String.mk (ser.data.take k)))
  let final := pfsSet (pfsDel (pfsSet fs0 (tmpOf out) ser) (tmpOf out)) out ser
  fs :: fs0 :: writes ++ [final]

/-- Embedding of qti_util.dump_JSON (lines 65-72): the filesystem after
the whole call completed. -/
def dump_JSON (fs : PFS) (ser : String) (out : PPath) : PFS :=
  let fs0 := if out.dir = [] then fs else mkdirsAll fs out.dir
  pfsSet (pfsDel (pfsSet fs0 (tmpOf out) ser) (tmpOf out)) out ser

/-! ### Per-archive download task: qti._download_archive -/

/-- One archive entry of the version JSON: its repository-relative path
and its expected SHA-256 digest (possibly the empty string). -/
structure ArchiveInfo where
  rel_path : String
  sha256 : String
deriving DecidableEq

/-- How one `_download_archive` task ends: an early return because the
file on disk is already valid, a normal return after a verified
download, a raised `HashMismathError` (the class name keeps the
source's spelling), a raised retrieval failure out of `retrieve_URL`,
or an uncaught `FileNotFoundError` from the post-download hash. -/
inductive ArchiveOutcome where
  | skippedValid
  | downloadedOk
  | hashMismatch (msg : String)
  | retrievalFailed (e : String)
  | fileNotFoundErr
deriving DecidableEq

/-- Recognizer for the raised-HashMismathError outcome. -/
def ArchiveOutcome.isMismatch : ArchiveOutcome → Bool
  | .hashMismatch _ => true
  | _ => false

/-- Python `rel_path.split("/")[-1]` (qti.get_archive_filepath). -/
def basenameOf (rel_path : String) : String :=
  String.mk (((splitChar '/' rel_path.data).getLast?).getD [])

/-- Destination file path of an archive (qti.get_archive_filepath,
lines 119-121): the archive's base name joined to the directory. -/
def archiveFilepath (info : ArchiveInfo) (dir : String) : String :=
  dir ++ "/" ++ basenameOf info.rel_path

/-- Remote URL of an archive for a given mirror (qti.py lines 133-134). -/
def archiveURL (info : ArchiveInfo) (ver_path mirror_URL : String) : String :=
  mirror_URL ++ "/online/qtsdkrepository/" ++ ver_path ++ "/" ++ info.rel_path

/-- The `HashMismathError` message built at qti.py lines 140-145. -/
def mismatchMsg (expected computed filepath url : String) : String :=
  "Hash mismatch of just downloaded file\n    expected " ++ expected ++
  "\n    computed " ++ computed ++ "\n    for file " ++ filepath ++
  "\n    downloaded from " ++ url

/-- Observable behaviour of one `_download_archive` task: the resulting
filesystem, the outcome, and how many network attempts were made. -/
structure ArchiveRun where
  fs : FileSys
  outcome : ArchiveOutcome
  fetches : Nat

/-- Embedding of qti._download_archive (lines 124-145). `hash` is the
SHA-256 hex digest of a file content; `compute_hash` on a missing file
raises `FileNotFoundError`, mapped to the empty digest by the guard at
lines 126-130. The file is fetched unless the pre-download check
(digest non-empty and equal to the expected hash) passes; after a fetch
the same check either returns or raises `HashMismathError`. -/
def _download_archive (hash : String → String) (net : String → ℚ → Nat → Except String String)
    (info : ArchiveInfo) (ver_path mirror_URL out_dir : String) (req_opts : ℚ × ℚ × ℚ)
    (fs : FileSys) : ArchiveRun :=
  let path := archiveFilepath info out_dir
  let computed := match fs path with
    | none => ""
    | some c => hash c
  if computed ≠ "" ∧ computed = info.sha256 then
    { fs := fs, outcome := .skippedValid, fetches := 0 }
  else
    let url := archiveURL info ver_path mirror_URL
    let r := retrieve_URL net url path req_opts fs
    let n := attemptsIn r.1
    match r.2.2 with
    | .raised e => { fs := r.2.1, outcome := .retrievalFailed e, fetches := n }
    | .returned _ =>
      match r.2.1 path with
      | none => { fs := r.2.1, outcome := .fileNotFoundErr, fetches := n }
      | some c =>
        let computed2 := hash c
        if computed2 ≠ "" ∧ computed2 = info.sha256 then
          { fs := r.2.1, outcome := .downloadedOk, fetches := n }
        else
          { fs := r.2.1, outcome := .hashMismatch (mismatchMsg info.sha256 computed2 path url),
            fetches := n }

/-- Observable behaviour of one batch of `_download_archive` tasks. -/
structure BatchRun where
  fs : FileSys
  fetches : Nat
  outcomes : List ArchiveOutcome

/-- One batch of `_download_archive` tasks over a list of archives,
composed sequentially. The parallel workers of the source write to
pairwise distinct destination paths and each task reads only its own
destination, so the filesystem effects and per-task outcomes agree with
the parallel execution. -/
def download_batch (hash : String → String) (net : String → ℚ → Nat → Except String String)
    (archives : List ArchiveInfo) (ver_path mirror_URL out_dir : String)
    (req_opts : ℚ × ℚ × ℚ) (fs : FileSys) : BatchRun :=
  archives.foldl (fun acc info =>
    let r := _download_archive hash net info ver_path mirror_URL out_dir req_opts acc.fs
    { fs := r.fs, fetches := acc.fetches + r.fetches, outcomes := acc.outcomes ++ [r.outcome] })
    { fs := fs, fetches := 0, outcomes := [] }

/-! ### Mirror failover manager: qti.download_archives -/

/-- Result of running one batch against one mirror, as observed by the
`try` block of `download_archives`: full success, a propagated
`HashMismathError`, or any other exception (exception class name and
message), which the source treats as a mirror failure. -/
inductive BatchResult where
  | ok
  | hashMismath (e : String)
  | netError (name e : String)
deriving DecidableEq

/-- How one `download_archives` call ends: normal return after a batch
succeeded on some mirror, a re-raised `HashMismathError`, the
`sys.exit` on mirror exhaustion (with its message), or the unreachable
fuel-out marker. -/
inductive DLOutcome where
  | success (mirror : String)
  | mismatchRaised (e : String)
  | exited (msg : String)
  | stuck
deriving DecidableEq

/-- Observable behaviour of one `download_archives` call: each batch
attempt (chosen mirror and its result) in order, everything printed,
the final outcome, and the final state of the mirror pool. -/
structure DLRun where
  attempts : List (String × BatchResult)
  printed : List String
  outcome : DLOutcome
  finalPool : List String
deriving DecidableEq

/-- The message printed when a mirror is dropped (qti.py lines 170-172). -/
def failLine (name e mirror : String) : String :=
  name ++ ": " ++ e ++ "\nFailed to fetch an archive from " ++ mirror ++
  "\nThe mirror will no longer be used for this run."

/-- The per-batch header print (qti.py lines 163-164). -/
def dlHeader (n : Nat) (mirror : String) : String :=
  "Downloading " ++ toString n ++ " archives\n    from " ++ mirror

/-- The `secrets.choice(working_mirrors)` of iteration `step`: the
random draw is resolved by the oracle `pick`, taken modulo the current
pool size so that every possible draw is covered. -/
def chooseMirror (pick : Nat → Nat) (step : Nat) (m0 : String) (rest : List String) : String :=
  (m0 :: rest).get ⟨pick step % (m0 :: rest).length, Nat.mod_lt _ (Nat.succ_pos _)⟩

/-- The `while working_mirrors` loop of qti.download_archives (lines
156-174). `runBatch m` is the observable result of
`pool_apply(_download_archive, ...)` for mirror `m`; `pick step`
resolves the `secrets.choice` of iteration `step`; `nArch` is
the number of archives in the batch. On `.ok` the function returns; on
`.hashMismath` the exception is re-raised unchanged and the pool is NOT
shrunk; on any other exception the failure lines are printed and the
chosen mirror is removed (`list.remove`, first occurrence) before the
next iteration. An empty pool exits via `sys.exit`. The fuel argument
only bounds the recursion; `download_archives` supplies the pool length,
which makes the `stuck` branch unreachable. -/
def dlGo (runBatch : String → BatchResult) (pick : Nat → Nat) (nArch : Nat) :
    Nat → Nat → List String → DLRun
  | _, _, [] =>
    { attempts := [], printed := [], outcome := .exited "All mirrors unreachable.",
      finalPool := [] }
  | _, 0, m0 :: rest =>
    { attempts := [], printed := [], outcome := .stuck, finalPool := m0 :: rest }
  | step, fuel + 1, m0 :: rest =>
    match runBatch (chooseMirror pick step m0 rest) with
    | .ok =>
      { attempts := [(chooseMirror pick step m0 rest, .ok)],
        printed := [dlHeader nArch (chooseMirror pick step m0 rest)],
        outcome := .success (chooseMirror pick step m0 rest),
        finalPool := m0 :: rest }
    | .hashMismath e =>
      { attempts := [(chooseMirror pick step m0 rest, .hashMismath e)],
        printed := [dlHeader nArch (chooseMirror pick step m0 rest)],
        outcome := .mismatchRaised e, finalPool := m0 :: rest }
    | .netError nm e =>
      { attempts := (chooseMirror pick step m0 rest, .netError nm e) ::
          (dlGo runBatch pick nArch (step + 1) fuel
            ((m0 :: rest).erase (chooseMirror pick step m0 rest))).attempts,
        printed := dlHeader nArch (chooseMirror pick step m0 rest) ::
          failLine nm e (chooseMirror pick step m0 rest) ::
          (dlGo runBatch pick nArch (step + 1) fuel
            ((m0 :: rest).erase (chooseMirror pick step m0 rest))).printed,
        outcome := (dlGo runBatch pick nArch (step + 1) fuel
          ((m0 :: rest).erase (chooseMirror pick step m0 rest))).outcome,
        finalPool := (dlGo runBatch pick nArch (step + 1) fuel
          ((m0 :: rest).erase (chooseMirror pick step m0 rest))).finalPool }

/-- Embedding of qti.download_archives (lines 148-174), abstracted over
the per-mirror batch result and the random choice sequence. -/
def download_archives (runBatch : String → BatchResult) (pick : Nat → Nat) (nArch : Nat)
    (mirrors : List String) : DLRun :=
  dlGo runBatch pick nArch 0 mirrors.length mirrors

/-- Exception classes a `_download_archive` worker task can raise, as
discriminated by the `except` clauses of `download_archives`:
`HashMismathError`, or any other exception (its class name and
message). -/
inductive DLErr where
  | hashMismath (msg : String)
  | otherError (name msg : String)
deriving DecidableEq

/-- Classification performed by the `try/except` of `download_archives`
on the result of one `pool_apply` call. -/
def classifyBatch {R : Type} (res : Option (Except DLErr (List R))) : BatchResult :=
  match res with
  | some (.ok _) => .ok
  | some (.error (.hashMismath e)) => .hashMismath e
  | some (.error (.otherError nm e)) => .netError nm e
  | none => .netError "FuelOut" "unreachable"

/-- The batch runner `download_archives` actually uses: run the task
pool on the per-mirror task list and classify the outcome. -/
def runBatchOf {R : Type} (taskSpecs : String → List (TaskSpec DLErr R))
    (workersRaw print_delay_s : ℚ) : String → BatchResult :=
  fun m => classifyBatch (pool_apply (taskSpecs m) workersRaw print_delay_s).result

/-! ## Helper lemmas -/

theorem chooseMirror_mem (pick : Nat → Nat) (step : Nat) (m0 : String) (rest : List String) :
    chooseMirror pick step m0 rest ∈ m0 :: rest :=
  List.get_mem _ _ _

theorem tmp_length (p : PPath) : (tmpOf p).base.length = p.base.length + 4 := by
  have h4 : (".tmp" : String).length = 4 := by decide
  simp [tmpOf, String.length_append, h4]

theorem ne_tmpOf (p : PPath) : p ≠ tmpOf p := by
  intro h
  have hb := congrArg (fun q => q.base.length) h
  simp only [tmp_length] at hb
  omega

theorem strPrefix_full (s : String) : String.mk (s.data.take s.length) = s := by
  cases s with
  | mk data =>
    show String.mk (data.take data.length) = String.mk data
    rw [List.take_length]

/-! ## C10 -/

/-- C10: when the `attempts` request option truncates (via `int()`) to
an integer that is not positive, the attempt loop of `retrieve_URL`
never executes: no network attempt happens, no sleep happens, no
exception is raised, the filesystem is untouched, and the function
returns Python `None`. -/
theorem retrieve_URL_nonpos_attempts (net : String → ℚ → Nat → Except String String)
    (URL filepath : String) (opts : ℚ × ℚ × ℚ) (fs : FileSys)
    (h : pyInt opts.2.2 ≤ 0) :
    retrieve_URL net URL filepath opts fs = ([], fs, .returned none) := by
  unfold retrieve_URL
  rw [Int.toNat_eq_zero.mpr h]
  rfl

theorem retrieve_URL_nonpos_attempts_witness :
    pyInt (mkRat (-3) 2) ≤ 0 ∧
    retrieve_URL (fun _ _ _ => .error "boom") "https://x.example/f" "out/f"
      (mkRat 15 1, mkRat 5 1, mkRat (-3) 2) (fun _ => none)
      = ([], (fun _ => none : FileSys), .returned none) :=
  ⟨by decide, retrieve_URL_nonpos_attempts _ _ _ _ _ (by decide)⟩

/-! ## C9 -/

/-- C9 (amended): called on an empty task list, `pool_apply` returns an
empty result list and the polling loop never runs, so no periodic
progress line is printed; however the worker pool is still constructed
with the configured `int(workers_num)` worker processes, and the final
`Completed all 0 tasks.` line is still printed. -/
theorem pool_apply_empty {E R : Type} (workersRaw print_delay_s : ℚ) :
    pool_apply ([] : List (TaskSpec E R)) workersRaw print_delay_s =
      { spawnedWorkers := (pyInt workersRaw).toNat,
        printed := [.completedAll 0], result := some (.ok []) } :=
  rfl

/-- C9 counterexample: with the default worker option 5, an empty task
list still spawns a pool of 5 worker processes and still prints the
completion line, contradicting the claim that no workers are spawned
and nothing is printed. -/
theorem pool_apply_empty_cex :
    (pool_apply ([] : List (TaskSpec String Nat)) (mkRat 5 1) (mkRat 10 1)).spawnedWorkers = 5 ∧
    (pool_apply ([] : List (TaskSpec String Nat)) (mkRat 5 1) (mkRat 10 1)).spawnedWorkers ≠ 0 ∧
    (pool_apply ([] : List (TaskSpec String Nat)) (mkRat 5 1) (mkRat 10 1)).printed ≠ [] ∧
    (pool_apply ([] : List (TaskSpec String Nat)) (mkRat 5 1) (mkRat 10 1)).result
      = some (.ok []) :=
  ⟨by decide, by decide, by decide, by decide⟩

/-! ## C7 -/

/-- C7: `dump_JSON` serializes the record entirely to a temporary file
in the destination directory (`out_file + ".tmp"`, same directory
components) and then renames it over the final path, creating the
intermediate directories first. In every intermediate state before the
final rename -- in particular, after the temporary file holds the whole
serialization -- the content at the final path is exactly what was
there before the call (or still absent), so a failure before the rename
leaves the final path unchanged and it never holds a partial write;
after the rename the final path holds the complete serialization and
the temporary file is gone. -/
theorem dump_JSON_atomic (fs : PFS) (ser : String) (out : PPath) :
    ((dump_JSON_states fs ser out).dropLast).map (fun s => s.files out) =
      List.replicate (ser.length + 3) (fs.files out) ∧
    ((dump_JSON_states fs ser out).dropLast).getLast? =
      some (pfsSet (if out.dir = [] then fs else mkdirsAll fs out.dir) (tmpOf out) ser) ∧
    (pfsSet (if out.dir = [] then fs else mkdirsAll fs out.dir) (tmpOf out) ser).files
      (tmpOf out) = some ser ∧
    (dump_JSON_states fs ser out).getLast? = some (dump_JSON fs ser out) ∧
    (dump_JSON fs ser out).files out = some ser ∧
    (dump_JSON fs ser out).files (tmpOf out) = none ∧
    (tmpOf out).dir = out.dir ∧
    (out.dir = [] ∨ out.dir ∈ (dump_JSON fs ser out).dirs) := by
  have hne : out ≠ tmpOf out := ne_tmpOf out
  have hne' : tmpOf out ≠ out := Ne.symm hne
  have hfiles0 : (if out.dir = [] then fs else mkdirsAll fs out.dir).files = fs.files := by
    by_cases h : out.dir = [] <;> simp [h, mkdirsAll]
  have hShape : dump_JSON_states fs ser out =
      ((fs :: (if out.dir = [] then fs else mkdirsAll fs out.dir) ::
        (List.range (ser.length + 1)).map
          (fun k => pfsSet (if out.dir = [] then fs else mkdirsAll fs out.dir) (tmpOf out)
            (String.mk (ser.data.take k)))) ++
       [pfsSet (pfsDel (pfsSet (if out.dir = [] then fs else mkdirsAll fs out.dir)
          (tmpOf out) ser) (tmpOf out)) out ser]) := by
    simp [dump_JSON_states]
  refine ⟨?_, ?_, ?_, ?_, ?_, ?_, rfl, ?_⟩
  · rw [hShape, List.dropLast_concat]
    have hrep : ser.length + 3 = (ser.length + 1) + 1 + 1 := by omega
    rw [hrep, List.replicate_succ, List.replicate_succ]
    simp only [List.map_cons, List.map_map, hfiles0]
    refine congrArg₂ _ rfl (congrArg₂ _ rfl ?_)
    have hlen : ((List.range (ser.length + 1)).map
        ((fun s => PFS.files s out) ∘
          (fun k => pfsSet (if out.dir = [] then fs else mkdirsAll fs out.dir) (tmpOf out)
            (String.mk (ser.data.take k))))).length = ser.length + 1 := by
      simp
    have hmem : ∀ b ∈ (List.range (ser.length + 1)).map
        ((fun s => PFS.files s out) ∘
          (fun k => pfsSet (if out.dir = [] then fs else mkdirsAll fs out.dir) (tmpOf out)
            (String.mk (ser.data.take k)))), b = fs.files out := by
      intro b hb
      rcases List.mem_map.mp hb with ⟨k, _, hk⟩
      rw [← hk]
      show (pfsSet _ (tmpOf out) _).files out = fs.files out
      simp [pfsSet, hne, hfiles0]
    have h2 := List.eq_replicate_of_mem hmem
    rw [hlen] at h2
    exact h2
  · rw [hShape, List.dropLast_concat]
    rw [List.range_succ, List.map_append]
    show ((fs :: (if out.dir = [] then fs else mkdirsAll fs out.dir) ::
        (List.range ser.length).map _) ++ [_]).getLast? = _
    rw [List.getLast?_concat]
    simp only [strPrefix_full]
  · simp [pfsSet]
  · rw [hShape, List.getLast?_concat]
    rfl
  · simp [dump_JSON, pfsSet]
  · simp [dump_JSON, pfsSet, pfsDel, hne']
  · by_cases h : out.dir = []
    · exact Or.inl h
    · refine Or.inr ?_
      have hpos : 0 < out.dir.length := List.length_pos.mpr h
      simp only [dump_JSON, pfsSet, pfsDel, mkdirsAll, h, if_neg h]
      apply List.mem_append_left
      refine List.mem_map.mpr ⟨out.dir.length - 1, List.mem_range.mpr (by omega), ?_⟩
      have : out.dir.length - 1 + 1 = out.dir.length := by omega
      rw [this, List.take_length]

/-! ## C2 -/

/-- C2 (amended): for an archive whose `expectedHash` is the empty
string, the pre-download check never accepts the file on disk (the
fetch is always attempted), and a successfully downloaded archive is
NOT accepted without verification: since the computed digest of the
downloaded file is non-empty, it can never equal the empty expected
hash, so the task always raises `HashMismathError` after the fetch. -/
theorem download_archive_empty_hash (hash : String → String)
    (net : String → ℚ → Nat → Except String String) (info : ArchiveInfo)
    (ver_path mirror_URL out_dir : String) (req_opts : ℚ × ℚ × ℚ) (fs : FileSys)
    (v : Option String) (c : String)
    (hexp : info.sha256 = "") :
    (_download_archive hash net info ver_path mirror_URL out_dir req_opts fs).outcome ≠
      .skippedValid ∧
    (((retrieve_URL net (archiveURL info ver_path mirror_URL) (archiveFilepath info out_dir)
        req_opts fs).2.2 = .returned v ∧
      (retrieve_URL net (archiveURL info ver_path mirror_URL) (archiveFilepath info out_dir)
        req_opts fs).2.1 (archiveFilepath info out_dir) = some c ∧
      hash c ≠ "") →
      (_download_archive hash net info ver_path mirror_URL out_dir req_opts fs).outcome =
        .hashMismatch (mismatchMsg info.sha256 (hash c) (archiveFilepath info out_dir)
          (archiveURL info ver_path mirror_URL))) := by
  constructor
  · simp only [_download_archive, hexp]
    split
    · rename_i hcond
      exact absurd hcond.2 hcond.1
    · split
      · simp
      · split
        · simp
        · split
          · simp
          · simp
  · rintro ⟨h1, h2, hh⟩
    simp only [_download_archive, hexp]
    split
    · rename_i hcond
      exact absurd hcond.2 hcond.1
    · rw [h1, h2]
      dsimp only
      rw [if_neg (fun hc => hc.1 hc.2)]

theorem download_archive_empty_hash_witness :
    (⟨"a/b.7z", ""⟩ : ArchiveInfo).sha256 = "" ∧
    (_download_archive (fun c => "h" ++ c) (fun _ _ _ => .ok "payload")
      (⟨"a/b.7z", ""⟩ : ArchiveInfo) "linux/desktop/640" "https://m.example" "out"
      (mkRat 15 1, mkRat 5 1, mkRat 3 1) (fun _ => none)).outcome ≠ .skippedValid ∧
    (_download_archive (fun c => "h" ++ c) (fun _ _ _ => .ok "payload")
      (⟨"a/b.7z", ""⟩ : ArchiveInfo) "linux/desktop/640" "https://m.example" "out"
      (mkRat 15 1, mkRat 5 1, mkRat 3 1) (fun _ => none)).outcome =
      .hashMismatch (mismatchMsg (⟨"a/b.7z", ""⟩ : ArchiveInfo).sha256 ((fun c => "h" ++ c) "payload")
        (archiveFilepath (⟨"a/b.7z", ""⟩ : ArchiveInfo) "out")
        (archiveURL (⟨"a/b.7z", ""⟩ : ArchiveInfo) "linux/desktop/640" "https://m.example")) := by
  have h := download_archive_empty_hash (fun c => "h" ++ c) (fun _ _ _ => .ok "payload")
    (⟨"a/b.7z", ""⟩ : ArchiveInfo) "linux/desktop/640" "https://m.example" "out"
    (mkRat 15 1, mkRat 5 1, mkRat 3 1) (fun _ => none) (some "") "payload" rfl
  exact ⟨rfl, h.1, h.2 ⟨by decide, by decide, by decide⟩⟩

/-- C2 counterexample: an archive with empty `expectedHash`, fetched
successfully, is NOT accepted: the task performs the fetch and then
raises `HashMismathError` instead of returning normally. -/
theorem download_archive_empty_hash_cex :
    (⟨"a/b.7z", ""⟩ : ArchiveInfo).sha256 = "" ∧
    (_download_archive (fun c => "h" ++ c) (fun _ _ _ => .ok "payload")
      (⟨"a/b.7z", ""⟩ : ArchiveInfo) "linux/desktop/640" "https://m.example" "out"
      (mkRat 15 1, mkRat 5 1, mkRat 3 1) (fun _ => none)).outcome.isMismatch = true ∧
    (_download_archive (fun c => "h" ++ c) (fun _ _ _ => .ok "payload")
      (⟨"a/b.7z", ""⟩ : ArchiveInfo) "linux/desktop/640" "https://m.example" "out"
      (mkRat 15 1, mkRat 5 1, mkRat 3 1) (fun _ => none)).fetches = 1 :=
  ⟨rfl, by decide, by decide⟩

/-! ## C3 -/

theorem download_archive_valid (hash : String → String)
    (net : String → ℚ → Nat → Except String String) (info : ArchiveInfo)
    (ver_path mirror_URL out_dir : String) (req_opts : ℚ × ℚ × ℚ) (fs : FileSys) (c : String)
    (hc : fs (archiveFilepath info out_dir) = some c) (hh : hash c = info.sha256)
    (hne : info.sha256 ≠ "") :
    _download_archive hash net info ver_path mirror_URL out_dir req_opts fs =
      { fs := fs, outcome := .skippedValid, fetches := 0 } := by
  simp only [_download_archive]
  rw [hc]
  dsimp only
  rw [if_pos ⟨by rw [hh]; exact hne, hh⟩]

theorem download_archive_skip_inv (hash : String → String)
    (net : String → ℚ → Nat → Except String String) (info : ArchiveInfo)
    (ver_path mirror_URL out_dir : String) (req_opts : ℚ × ℚ × ℚ) (fs : FileSys)
    (h : (_download_archive hash net info ver_path mirror_URL out_dir req_opts fs).outcome =
      .skippedValid) :
    (∃ c, fs (archiveFilepath info out_dir) = some c ∧ hash c = info.sha256) ∧
      info.sha256 ≠ "" := by
  simp only [_download_archive] at h
  revert h
  split
  · rename_i hcond
    intro _
    rcases hfs : fs (archiveFilepath info out_dir) with _ | c
    · rw [hfs] at hcond
      exact absurd rfl hcond.1
    · rw [hfs] at hcond
      refine ⟨⟨c, rfl, hcond.2⟩, ?_⟩
      rw [← hcond.2]
      exact hcond.1
  · split
    · intro h
      exact absurd h (by simp)
    · split
      · intro h
        exact absurd h (by simp)
      · split
        · intro h
          exact absurd h (by simp)
        · intro h
          exact absurd h (by simp)

theorem download_batch_go_valid (hash : String → String)
    (net : String → ℚ → Nat → Except String String)
    (ver_path mirror_URL out_dir : String) (req_opts : ℚ × ℚ × ℚ) :
    ∀ (archives : List ArchiveInfo) (acc : BatchRun),
    (∀ a ∈ archives, ∃ c, acc.fs (archiveFilepath a out_dir) = some c ∧ hash c = a.sha256 ∧
      a.sha256 ≠ "") →
    archives.foldl (fun acc info =>
      let r := _download_archive hash net info ver_path mirror_URL out_dir req_opts acc.fs
      { fs := r.fs, fetches := acc.fetches + r.fetches,
        outcomes := acc.outcomes ++ [r.outcome] }) acc =
      { fs := acc.fs, fetches := acc.fetches,
        outcomes := acc.outcomes ++ List.replicate archives.length .skippedValid } := by
  intro archives
  induction archives with
  | nil => intro acc _; simp
  | cons a as ih =>
    intro acc h
    rcases h a (List.mem_cons_self a as) with ⟨c, hc, hh, hne⟩
    have hr := download_archive_valid hash net a ver_path mirror_URL out_dir req_opts acc.fs c
      hc hh hne
    have h' : ∀ a' ∈ as, ∃ c, acc.fs (archiveFilepath a' out_dir) = some c ∧
        hash c = a'.sha256 ∧ a'.sha256 ≠ "" :=
      fun a' ha' => h a' (List.mem_cons_of_mem _ ha')
    rw [List.foldl_cons]
    simp only [hr]
    rw [ih ⟨acc.fs, acc.fetches + 0, acc.outcomes ++ [ArchiveOutcome.skippedValid]⟩ h']
    simp [List.replicate_succ]

/-- C3: the pre-download already-valid check of `_download_archive`
accepts (and skips the network fetch) exactly when the destination file
exists, its computed digest equals `expectedHash`, and `expectedHash`
is non-empty; a skip performs zero network attempts and leaves the
filesystem untouched; an empty `expectedHash` never skips; and a batch
over archives that are all on disk with digests matching their
non-empty expected hashes (a second run over a fully downloaded set)
performs zero network fetches and changes nothing. -/
theorem download_archive_already_valid (hash : String → String)
    (net : String → ℚ → Nat → Except String String) (info : ArchiveInfo)
    (ver_path mirror_URL out_dir : String) (req_opts : ℚ × ℚ × ℚ) (fs : FileSys)
    (archives : List ArchiveInfo) :
    ((_download_archive hash net info ver_path mirror_URL out_dir req_opts fs).outcome =
        .skippedValid ↔
      (∃ c, fs (archiveFilepath info out_dir) = some c ∧ hash c = info.sha256) ∧
        info.sha256 ≠ "") ∧
    ((_download_archive hash net info ver_path mirror_URL out_dir req_opts fs).outcome =
        .skippedValid →
      _download_archive hash net info ver_path mirror_URL out_dir req_opts fs =
        { fs := fs, outcome := .skippedValid, fetches := 0 }) ∧
    (info.sha256 = "" →
      (_download_archive hash net info ver_path mirror_URL out_dir req_opts fs).outcome ≠
        .skippedValid) ∧
    ((∀ a ∈ archives, ∃ c, fs (archiveFilepath a out_dir) = some c ∧ hash c = a.sha256 ∧
        a.sha256 ≠ "") →
      download_batch hash net archives ver_path mirror_URL out_dir req_opts fs =
        { fs := fs, fetches := 0,
          outcomes := List.replicate archives.length .skippedValid }) := by
  refine ⟨⟨?_, ?_⟩, ?_, ?_, ?_⟩
  · exact download_archive_skip_inv hash net info ver_path mirror_URL out_dir req_opts fs
  · rintro ⟨⟨c, hc, hh⟩, hne⟩
    rw [download_archive_valid hash net info ver_path mirror_URL out_dir req_opts fs c hc hh hne]
  · intro hskip
    rcases hfs : fs (archiveFilepath info out_dir) with _ | c
    · rcases download_archive_skip_inv hash net info ver_path mirror_URL out_dir req_opts fs
        hskip with ⟨⟨c, hc, _⟩, _⟩
      rw [hfs] at hc
      cases hc
    · rcases download_archive_skip_inv hash net info ver_path mirror_URL out_dir req_opts fs
        hskip with ⟨⟨cc, hc, hh⟩, hne⟩
      rw [hfs] at hc
      have hcc := Option.some.inj hc
      rw [← hcc] at hh
      exact download_archive_valid hash net info ver_path mirror_URL out_dir req_opts fs c
        hfs hh hne
  · intro hemp hskip
    exact (download_archive_skip_inv hash net info ver_path mirror_URL out_dir req_opts fs
      hskip).2 hemp
  · intro h
    have := download_batch_go_valid hash net ver_path mirror_URL out_dir req_opts archives
      { fs := fs, fetches := 0, outcomes := [] } (by simpa using h)
    simpa [download_batch] using this

theorem download_archive_already_valid_witness :
    (_download_archive (fun c => if c = "X" then "h1" else "zz") (fun _ _ _ => .ok "Y")
      (⟨"p/a.7z", "h1"⟩ : ArchiveInfo) "vp" "https://m.example" "out"
      (mkRat 15 1, mkRat 5 1, mkRat 3 1)
      (fun p => if p = "out/a.7z" then some "X" else none)).outcome = .skippedValid ∧
    _download_archive (fun c => if c = "X" then "h1" else "zz") (fun _ _ _ => .ok "Y")
      (⟨"p/a.7z", "h1"⟩ : ArchiveInfo) "vp" "https://m.example" "out"
      (mkRat 15 1, mkRat 5 1, mkRat 3 1)
      (fun p => if p = "out/a.7z" then some "X" else none) =
      { fs := fun p => if p = "out/a.7z" then some "X" else none,
        outcome := .skippedValid, fetches := 0 } ∧
    download_batch (fun c => if c = "X" then "h1" else "zz") (fun _ _ _ => .ok "Y")
      [(⟨"p/a.7z", "h1"⟩ : ArchiveInfo)] "vp" "https://m.example" "out"
      (mkRat 15 1, mkRat 5 1, mkRat 3 1)
      (fun p => if p = "out/a.7z" then some "X" else none) =
      { fs := fun p => if p = "out/a.7z" then some "X" else none,
        fetches := 0, outcomes := List.replicate 1 ArchiveOutcome.skippedValid } := by
  have H := download_archive_already_valid (fun c => if c = "X" then "h1" else "zz")
    (fun _ _ _ => .ok "Y") (⟨"p/a.7z", "h1"⟩ : ArchiveInfo) "vp" "https://m.example" "out"
    (mkRat 15 1, mkRat 5 1, mkRat 3 1)
    (fun p => if p = "out/a.7z" then some "X" else none) [(⟨"p/a.7z", "h1"⟩ : ArchiveInfo)]
  have hskip := H.1.mpr ⟨⟨"X", by decide, by decide⟩, by decide⟩
  have hall : ∀ a ∈ [(⟨"p/a.7z", "h1"⟩ : ArchiveInfo)],
      ∃ c, (fun p => if p = "out/a.7z" then some "X" else none : FileSys)
        (archiveFilepath a "out") = some c ∧
        (fun c => if c = "X" then "h1" else "zz") c = a.sha256 ∧ a.sha256 ≠ "" := by
    intro a ha
    rcases List.mem_singleton.mp ha with rfl
    exact ⟨"X", by decide, by decide, by decide⟩
  exact ⟨hskip, H.2.1 hskip, H.2.2.2 hall⟩

/-! ## C8 -/

theorem retryLoop_attempts_le (net : String → ℚ → Nat → Except String String) (URL : String)
    (timeout_s : ℚ) (filepath : String) (d : ℚ) (fs : FileSys) :
    ∀ rem i, attemptsIn (retryLoop net URL timeout_s filepath d fs rem i).1 ≤ rem := by
  intro rem
  induction rem with
  | zero => intro i; simp [retryLoop, attemptsIn]
  | succ rem ih =>
    intro i
    rcases hnet : net URL timeout_s i with e | c
    · cases rem with
      | zero =>
        unfold retryLoop
        rw [hnet]
        dsimp only
        simp [attemptsIn, List.countP_cons, isAttempt]
      | succ rem' =>
        unfold retryLoop
        rw [hnet]
        dsimp only
        have hA : isAttempt (RetEvent.attempt i) = true := rfl
        have hS : isAttempt (RetEvent.sleep d) = false := rfl
        have := ih (i + 1)
        simp only [attemptsIn] at this
        simp [attemptsIn, List.countP_cons, hA, hS]
        omega
    · unfold retryLoop
      rw [hnet]
      dsimp only
      split <;> simp [attemptsIn, List.countP_cons, isAttempt]

theorem attemptMap_shift (n i : Nat) :
    List.map (fun j => RetEvent.attempt (i + j)) (List.range (n + 1)) =
      RetEvent.attempt i :: List.map (fun j => RetEvent.attempt ((i + 1) + j)) (List.range n) := by
  rw [List.range_succ_eq_map, List.map_cons, List.map_map]
  refine congrArg₂ _ (by simp) ?_
  apply List.map_congr_left
  intro j _
  show RetEvent.attempt (i + (j + 1)) = RetEvent.attempt ((i + 1) + j)
  congr 1
  omega

theorem retryLoop_allFail (net : String → ℚ → Nat → Except String String) (URL : String)
    (timeout_s : ℚ) (filepath : String) (d : ℚ) (fs : FileSys) (E : Nat → String) :
    ∀ rem i, 0 < rem → (∀ j, j < rem → net URL timeout_s (i + j) = .error (E (i + j))) →
    (retryLoop net URL timeout_s filepath d fs rem i).1.filter (fun e => isAttempt e) =
      (List.range rem).map (fun j => RetEvent.attempt (i + j)) ∧
    (retryLoop net URL timeout_s filepath d fs rem i).1.filter (fun e => !(isAttempt e)) =
      List.replicate (rem - 1) (RetEvent.sleep d) ∧
    (retryLoop net URL timeout_s filepath d fs rem i).2.1 = fs ∧
    (retryLoop net URL timeout_s filepath d fs rem i).2.2 = .raised (E (i + rem - 1)) := by
  intro rem
  induction rem with
  | zero => intro i h0 _; exact absurd h0 (lt_irrefl 0)
  | succ rem ih =>
    intro i _ hE
    have hnet : net URL timeout_s i = .error (E i) := by
      have := hE 0 (Nat.succ_pos rem)
      simpa using this
    cases rem with
    | zero =>
      unfold retryLoop
      rw [hnet]
      refine ⟨?_, ?_, rfl, ?_⟩
      · simp [List.filter_cons, isAttempt, List.range_succ]
      · simp [List.filter_cons, isAttempt]
      · simp
    | succ rem' =>
      have hE' : ∀ j, j < rem' + 1 → net URL timeout_s ((i + 1) + j) = .error (E ((i + 1) + j)) := by
        intro j hj
        have := hE (j + 1) (by omega)
        rw [show i + (j + 1) = (i + 1) + j by omega] at this
        exact this
      rcases ih (i + 1) (Nat.succ_pos rem') hE' with ⟨h1, h2, h3, h4⟩
      have hA : isAttempt (RetEvent.attempt i) = true := rfl
      have hS : isAttempt (RetEvent.sleep d) = false := rfl
      unfold retryLoop
      rw [hnet]
      refine ⟨?_, ?_, h3, ?_⟩
      · simp [List.filter_cons, hA, hS, h1]
        rw [attemptMap_shift (rem' + 1) i]
      · simp [List.filter_cons, hA, hS, h2, List.replicate_succ]
      · rw [h4]
        have harith : i + 1 + (rem' + 1) - 1 = i + (rem' + 1 + 1) - 1 := by omega
        rw [harith]

/-- C8 (amended): for `maxAttempts = int(attempts) = n + 1 >= 1`,
`retrieve_URL` performs at most `maxAttempts` network attempts (exactly
`maxAttempts` when every attempt fails), sleeping exactly the fixed
`retryDelaySeconds` between consecutive attempts (the non-attempt
events are exactly `n` sleeps all carrying the same configured delay --
no exponential backoff); when the final attempt fails, the failure is
propagated by re-raising the underlying exception of the last attempt
UNCHANGED: no `RetrievalError` wrapper exists and the URL is not
attached to the propagated error. -/
theorem retrieve_URL_retry_discipline (net : String → ℚ → Nat → Except String String)
    (URL filepath : String) (opts : ℚ × ℚ × ℚ) (fs : FileSys) (E : Nat → String) (n : Nat)
    (hn : (pyInt opts.2.2).toNat = n + 1)
    (hE : ∀ j, j < n + 1 → net URL opts.1 j = .error (E j)) :
    attemptsIn (retrieve_URL net URL filepath opts fs).1 = n + 1 ∧
    (retrieve_URL net URL filepath opts fs).1.filter (fun e => !(isAttempt e)) =
      List.replicate n (RetEvent.sleep opts.2.1) ∧
    (retrieve_URL net URL filepath opts fs).2.1 = fs ∧
    (retrieve_URL net URL filepath opts fs).2.2 = .raised (E n) ∧
    (∀ net' : String → ℚ → Nat → Except String String,
      attemptsIn (retrieve_URL net' URL filepath opts fs).1 ≤ (pyInt opts.2.2).toNat) := by
  have hru : retrieve_URL net URL filepath opts fs =
      retryLoop net URL opts.1 filepath opts.2.1 fs (n + 1) 0 := by
    unfold retrieve_URL
    rw [hn]
  have h := retryLoop_allFail net URL opts.1 filepath opts.2.1 fs E (n + 1) 0 (Nat.succ_pos n)
    (by intro j hj; simpa using hE j hj)
  rcases h with ⟨h1, h2, h3, h4⟩
  refine ⟨?_, ?_, ?_, ?_, ?_⟩
  · rw [hru]
    have hcount : attemptsIn (retryLoop net URL opts.1 filepath opts.2.1 fs (n + 1) 0).1 =
        ((retryLoop net URL opts.1 filepath opts.2.1 fs (n + 1) 0).1.filter
          (fun e => isAttempt e)).length := by
      simp [attemptsIn, List.countP_eq_length_filter]
    rw [hcount, h1, List.length_map, List.length_range]
  · rw [hru]
    simpa using h2
  · rw [hru]
    exact h3
  · rw [hru]
    simpa using h4
  · intro nn
    unfold retrieve_URL
    exact retryLoop_attempts_le nn URL opts.1 filepath opts.2.1 fs (pyInt opts.2.2).toNat 0

theorem retrieve_URL_retry_discipline_witness :
    (pyInt (mkRat 3 1)).toNat = 2 + 1 ∧
    attemptsIn (retrieve_URL (fun _ _ _ => .error "timed out") "https://m.example/a.7z"
      "out/a.7z" (mkRat 15 1, mkRat 5 1, mkRat 3 1) (fun _ => none)).1 = 2 + 1 ∧
    (retrieve_URL (fun _ _ _ => .error "timed out") "https://m.example/a.7z" "out/a.7z"
      (mkRat 15 1, mkRat 5 1, mkRat 3 1) (fun _ => none)).1.filter (fun e => !(isAttempt e)) =
      List.replicate 2 (RetEvent.sleep (mkRat 5 1)) ∧
    (retrieve_URL (fun _ _ _ => .error "timed out") "https://m.example/a.7z" "out/a.7z"
      (mkRat 15 1, mkRat 5 1, mkRat 3 1) (fun _ => none)).2.2 = .raised "timed out" := by
  have h := retrieve_URL_retry_discipline (fun _ _ _ => .error "timed out")
    "https://m.example/a.7z" "out/a.7z" (mkRat 15 1, mkRat 5 1, mkRat 3 1) (fun _ => none)
    (fun _ => "timed out") 2 (by decide) (by intro j _; rfl)
  exact ⟨by decide, h.1, h.2.1, h.2.2.2.1⟩

/-- C8 counterexample: on exhaustion the code re-raises the bare
underlying exception, not a `RetrievalError` carrying the URL: the
propagated error of a failing retrieval equals the transport's own
error text and does not mention the URL at all. -/
theorem retrieve_URL_no_wrapper_cex :
    (retrieve_URL (fun _ _ _ => .error "timed out") "https://mirror.example/qtbase.7z"
      "out/qtbase.7z" (mkRat 15 1, mkRat 5 1, mkRat 3 1) (fun _ => none)).2.2 =
      .raised "timed out" ∧
    strHasSub "https://mirror.example/qtbase.7z" "timed out" = false ∧
    strHasSub "mirror.example" "timed out" = false ∧
    strHasSub "RetrievalError" "timed out" = false :=
  ⟨by decide, by decide, by decide, by decide⟩

/-! ## Mirror failover lemmas (C1, C4, C5) -/

theorem dlGo_sublist (rb : String → BatchResult) (pick : Nat → Nat) (nArch : Nat) :
    ∀ fuel step pool, ((dlGo rb pick nArch step fuel pool).finalPool).Sublist pool := by
  intro fuel
  induction fuel with
  | zero =>
    intro step pool
    cases pool with
    | nil => simp only [dlGo]; exact List.nil_sublist []
    | cons m0 rest => simp only [dlGo]; exact List.Sublist.refl _
  | succ fuel ih =>
    intro step pool
    cases pool with
    | nil => simp only [dlGo]; exact List.nil_sublist []
    | cons m0 rest =>
      cases hrb : rb (chooseMirror pick step m0 rest) with
      | ok => simp only [dlGo, hrb]; exact List.Sublist.refl _
      | hashMismath e => simp only [dlGo, hrb]; exact List.Sublist.refl _
      | netError nm e =>
        simp only [dlGo, hrb]
        exact (ih (step + 1) ((m0 :: rest).erase (chooseMirror pick step m0 rest))).trans
          (List.erase_sublist _ _)

theorem dlGo_attempts_mem (rb : String → BatchResult) (pick : Nat → Nat) (nArch : Nat) :
    ∀ fuel step pool p, p ∈ (dlGo rb pick nArch step fuel pool).attempts → p.1 ∈ pool := by
  intro fuel
  induction fuel with
  | zero =>
    intro step pool p hp
    cases pool with
    | nil => simp only [dlGo] at hp; exact absurd hp (List.not_mem_nil p)
    | cons m0 rest => simp only [dlGo] at hp; exact absurd hp (List.not_mem_nil p)
  | succ fuel ih =>
    intro step pool p hp
    cases pool with
    | nil => simp only [dlGo] at hp; exact absurd hp (List.not_mem_nil p)
    | cons m0 rest =>
      cases hrb : rb (chooseMirror pick step m0 rest) with
      | ok =>
        simp only [dlGo, hrb] at hp
        rcases List.mem_singleton.mp hp with rfl
        exact chooseMirror_mem pick step m0 rest
      | hashMismath e =>
        simp only [dlGo, hrb] at hp
        rcases List.mem_singleton.mp hp with rfl
        exact chooseMirror_mem pick step m0 rest
      | netError nm e =>
        simp only [dlGo, hrb] at hp
        rcases List.mem_cons.mp hp with rfl | hp'
        · exact chooseMirror_mem pick step m0 rest
        · exact List.mem_of_mem_erase
            (ih (step + 1) ((m0 :: rest).erase (chooseMirror pick step m0 rest)) p hp')

theorem dlGo_mismatch (rb : String → BatchResult) (pick : Nat → Nat) (nArch : Nat) :
    ∀ fuel step pool k m e,
    (dlGo rb pick nArch step fuel pool).attempts.get? k = some (m, BatchResult.hashMismath e) →
    (dlGo rb pick nArch step fuel pool).outcome = .mismatchRaised e ∧
    (dlGo rb pick nArch step fuel pool).attempts.length = k + 1 ∧
    m ∈ (dlGo rb pick nArch step fuel pool).finalPool ∧
    (dlGo rb pick nArch step fuel pool).finalPool.length + k = pool.length := by
  intro fuel
  induction fuel with
  | zero =>
    intro step pool k m e h
    cases pool with
    | nil => simp [dlGo] at h
    | cons m0 rest => simp [dlGo] at h
  | succ fuel ih =>
    intro step pool k m e h
    cases pool with
    | nil => simp [dlGo] at h
    | cons m0 rest =>
      cases hrb : rb (chooseMirror pick step m0 rest) with
      | ok =>
        simp only [dlGo, hrb] at h ⊢
        cases k with
        | zero => simp at h
        | succ k => simp at h
      | hashMismath e' =>
        simp only [dlGo, hrb] at h ⊢
        cases k with
        | zero =>
          simp only [List.get?_cons_zero, Option.some.injEq, Prod.mk.injEq] at h
          rcases h with ⟨hm, he⟩
          cases he
          exact ⟨rfl, rfl, hm ▸ chooseMirror_mem pick step m0 rest, rfl⟩
        | succ k => simp at h
      | netError nm e' =>
        simp only [dlGo, hrb] at h ⊢
        cases k with
        | zero => simp at h
        | succ k =>
          rw [List.get?_cons_succ] at h
          rcases ih (step + 1) ((m0 :: rest).erase (chooseMirror pick step m0 rest)) k m e h
            with ⟨o1, o2, o3, o4⟩
          have hlen : ((m0 :: rest).erase (chooseMirror pick step m0 rest)).length + 1 =
              (m0 :: rest).length :=
            List.length_erase_add_one (chooseMirror_mem pick step m0 rest)
          refine ⟨o1, ?_, o3, ?_⟩
          · simp [o2]
          · simp only [List.length_cons] at hlen ⊢
            omega

theorem dlGo_attempts_nodup (rb : String → BatchResult) (pick : Nat → Nat) (nArch : Nat) :
    ∀ fuel step pool, pool.Nodup →
    ((dlGo rb pick nArch step fuel pool).attempts.map Prod.fst).Nodup := by
  intro fuel
  induction fuel with
  | zero =>
    intro step pool _
    cases pool with
    | nil => simp [dlGo]
    | cons m0 rest => simp [dlGo]
  | succ fuel ih =>
    intro step pool hnd
    cases pool with
    | nil => simp [dlGo]
    | cons m0 rest =>
      cases hrb : rb (chooseMirror pick step m0 rest) with
      | ok => simp [dlGo, hrb]
      | hashMismath e => simp [dlGo, hrb]
      | netError nm e =>
        simp only [dlGo, hrb, List.map_cons]
        refine List.nodup_cons.mpr ⟨?_, ?_⟩
        · intro hmem
          rcases List.mem_map.mp hmem with ⟨p, hp, hfst⟩
          have hin := dlGo_attempts_mem rb pick nArch fuel (step + 1)
            ((m0 :: rest).erase (chooseMirror pick step m0 rest)) p hp
          rw [hfst] at hin
          exact absurd ((List.Nodup.mem_erase_iff hnd).mp hin).1 (by simp)
        · exact ih (step + 1) ((m0 :: rest).erase (chooseMirror pick step m0 rest))
            (List.Nodup.erase _ hnd)

theorem dlGo_printed_failLine (rb : String → BatchResult) (pick : Nat → Nat) (nArch : Nat) :
    ∀ fuel step pool m nm e,
    (m, BatchResult.netError nm e) ∈ (dlGo rb pick nArch step fuel pool).attempts →
    failLine nm e m ∈ (dlGo rb pick nArch step fuel pool).printed := by
  intro fuel
  induction fuel with
  | zero =>
    intro step pool m nm e h
    cases pool with
    | nil => simp [dlGo] at h
    | cons m0 rest => simp [dlGo] at h
  | succ fuel ih =>
    intro step pool m nm e h
    cases pool with
    | nil => simp [dlGo] at h
    | cons m0 rest =>
      cases hrb : rb (chooseMirror pick step m0 rest) with
      | ok => simp [dlGo, hrb] at h
      | hashMismath e' => simp [dlGo, hrb] at h
      | netError nm' e' =>
        simp only [dlGo, hrb] at h ⊢
        rcases List.mem_cons.mp h with heq | h'
        · rcases Prod.mk.injEq .. ▸ heq with ⟨h1, h2⟩
          cases h2
          rw [h1]
          exact List.mem_cons_of_mem _ (List.mem_cons_self _ _)
        · exact List.mem_cons_of_mem _ (List.mem_cons_of_mem _
            (ih (step + 1) ((m0 :: rest).erase (chooseMirror pick step m0 rest)) m nm e h'))

theorem dlGo_exhaust (rb : String → BatchResult) (pick : Nat → Nat) (nArch : Nat) :
    ∀ fuel step pool, pool.length ≤ fuel →
    (∀ m ∈ pool, ∃ nm e, rb m = BatchResult.netError nm e) →
    (dlGo rb pick nArch step fuel pool).outcome = .exited "All mirrors unreachable." ∧
    (dlGo rb pick nArch step fuel pool).finalPool = [] ∧
    (dlGo rb pick nArch step fuel pool).attempts.length = pool.length ∧
    (∀ p ∈ (dlGo rb pick nArch step fuel pool).attempts,
      ∃ nm e, p.2 = BatchResult.netError nm e) := by
  intro fuel
  induction fuel with
  | zero =>
    intro step pool hlen _
    cases pool with
    | nil => simp [dlGo]
    | cons m0 rest => simp at hlen
  | succ fuel ih =>
    intro step pool hlen hall
    cases pool with
    | nil => simp [dlGo]
    | cons m0 rest =>
      rcases hall (chooseMirror pick step m0 rest) (chooseMirror_mem pick step m0 rest)
        with ⟨nm, e, hrb⟩
      simp only [dlGo, hrb]
      have herase : ((m0 :: rest).erase (chooseMirror pick step m0 rest)).length + 1 =
          (m0 :: rest).length :=
        List.length_erase_add_one (chooseMirror_mem pick step m0 rest)
      have hle : ((m0 :: rest).erase (chooseMirror pick step m0 rest)).length ≤ fuel := by
        simp only [List.length_cons] at herase hlen
        omega
      have hall' : ∀ m ∈ (m0 :: rest).erase (chooseMirror pick step m0 rest),
          ∃ nm e, rb m = BatchResult.netError nm e :=
        fun m hm => hall m (List.mem_of_mem_erase hm)
      rcases ih (step + 1) ((m0 :: rest).erase (chooseMirror pick step m0 rest)) hle hall'
        with ⟨i1, i2, i3, i4⟩
      refine ⟨i1, i2, ?_, ?_⟩
      · simp only [List.length_cons, i3]
        simp only [List.length_cons] at herase
        omega
      · intro p hp
        rcases List.mem_cons.mp hp with rfl | hp'
        · exact ⟨nm, e, rfl⟩
        · exact i4 p hp'

theorem dlGo_success (rb : String → BatchResult) (pick : Nat → Nat) (nArch : Nat) :
    ∀ fuel step pool m,
    (dlGo rb pick nArch step fuel pool).outcome = .success m →
    (dlGo rb pick nArch step fuel pool).attempts.getLast? = some (m, BatchResult.ok) ∧
    1 ≤ (dlGo rb pick nArch step fuel pool).attempts.length ∧
    (dlGo rb pick nArch step fuel pool).finalPool.length +
      ((dlGo rb pick nArch step fuel pool).attempts.length - 1) = pool.length ∧
    m ∈ (dlGo rb pick nArch step fuel pool).finalPool := by
  intro fuel
  induction fuel with
  | zero =>
    intro step pool m h
    cases pool with
    | nil => simp [dlGo] at h
    | cons m0 rest => simp [dlGo] at h
  | succ fuel ih =>
    intro step pool m h
    cases pool with
    | nil => simp [dlGo] at h
    | cons m0 rest =>
      cases hrb : rb (chooseMirror pick step m0 rest) with
      | ok =>
        simp only [dlGo, hrb] at h ⊢
        simp only [DLOutcome.success.injEq] at h
        cases h
        exact ⟨rfl, Nat.le_refl 1, rfl, chooseMirror_mem pick step m0 rest⟩
      | hashMismath e => simp [dlGo, hrb] at h
      | netError nm e =>
        simp only [dlGo, hrb] at h ⊢
        rcases ih (step + 1) ((m0 :: rest).erase (chooseMirror pick step m0 rest)) m h
          with ⟨i1, i2, i3, i4⟩
        have herase : ((m0 :: rest).erase (chooseMirror pick step m0 rest)).length + 1 =
            (m0 :: rest).length :=
          List.length_erase_add_one (chooseMirror_mem pick step m0 rest)
        rcases hne : (dlGo rb pick nArch (step + 1) fuel
            ((m0 :: rest).erase (chooseMirror pick step m0 rest))).attempts with _ | ⟨a, tl⟩
        · rw [hne] at i2; simp at i2
        · rw [hne] at i1 i3
          refine ⟨?_, ?_, ?_, i4⟩
          · rw [List.getLast?_cons_cons]
            exact i1
          · simp
          · simp only [List.length_cons] at i3 herase ⊢
            omega

theorem dlGo_prefix_netError (rb : String → BatchResult) (pick : Nat → Nat) (nArch : Nat) :
    ∀ fuel step pool i,
    i + 1 < (dlGo rb pick nArch step fuel pool).attempts.length →
    ∃ m nm e, (dlGo rb pick nArch step fuel pool).attempts.get? i =
      some (m, BatchResult.netError nm e) := by
  intro fuel
  induction fuel with
  | zero =>
    intro step pool i h
    cases pool with
    | nil => simp [dlGo] at h
    | cons m0 rest => simp [dlGo] at h
  | succ fuel ih =>
    intro step pool i h
    cases pool with
    | nil => simp [dlGo] at h
    | cons m0 rest =>
      cases hrb : rb (chooseMirror pick step m0 rest) with
      | ok => simp [dlGo, hrb] at h
      | hashMismath e => simp [dlGo, hrb] at h
      | netError nm e =>
        simp only [dlGo, hrb] at h ⊢
        cases i with
        | zero => exact ⟨chooseMirror pick step m0 rest, nm, e, rfl⟩
        | succ i =>
          rw [List.get?_cons_succ]
          simp only [List.length_cons] at h
          exact ih (step + 1) ((m0 :: rest).erase (chooseMirror pick step m0 rest)) i
            (by omega)

theorem dlGo_finalPool_mem_iff (rb : String → BatchResult) (pick : Nat → Nat) (nArch : Nat) :
    ∀ fuel step pool, pool.Nodup → ∀ m, m ∈ pool →
    (m ∈ (dlGo rb pick nArch step fuel pool).finalPool ↔
      ∀ nm e, (m, BatchResult.netError nm e) ∉ (dlGo rb pick nArch step fuel pool).attempts) := by
  intro fuel
  induction fuel with
  | zero =>
    intro step pool _ m hm
    cases pool with
    | nil => exact absurd hm (List.not_mem_nil m)
    | cons m0 rest => simp [dlGo, hm]
  | succ fuel ih =>
    intro step pool hnd m hm
    cases pool with
    | nil => exact absurd hm (List.not_mem_nil m)
    | cons m0 rest =>
      cases hrb : rb (chooseMirror pick step m0 rest) with
      | ok => simp [dlGo, hrb, hm]
      | hashMismath e => simp [dlGo, hrb, hm]
      | netError nm e =>
        simp only [dlGo, hrb]
        by_cases hmc : m = chooseMirror pick step m0 rest
        · constructor
          · intro hmem
            have hsub := dlGo_sublist rb pick nArch fuel (step + 1)
              ((m0 :: rest).erase (chooseMirror pick step m0 rest))
            have hin := hsub.subset hmem
            rw [hmc] at hin
            exact absurd ((List.Nodup.mem_erase_iff hnd).mp hin).1 (by simp)
          · intro hnone
            have hx := hnone nm e
            rw [hmc] at hx
            exact absurd (List.mem_cons_self _ _) hx
        · have hmem' : m ∈ (m0 :: rest).erase (chooseMirror pick step m0 rest) :=
            (List.mem_erase_of_ne hmc).mpr hm
          have := ih (step + 1) ((m0 :: rest).erase (chooseMirror pick step m0 rest))
            (List.Nodup.erase _ hnd) m hmem'
          rw [this]
          constructor
          · intro hnone nm' e' hmem
            rcases List.mem_cons.mp hmem with heq | h'
            · exact hmc (congrArg Prod.fst heq)
            · exact hnone nm' e' h'
          · intro hnone nm' e' hmem
            exact hnone nm' e' (List.mem_cons_of_mem _ hmem)

theorem dlGo_exhaust_complete (rb : String → BatchResult) (pick : Nat → Nat) (nArch : Nat) :
    ∀ fuel step pool, pool.length ≤ fuel →
    (∀ m ∈ pool, ∃ nm e, rb m = BatchResult.netError nm e) →
    ∀ m ∈ pool, ∃ nm e,
      (m, BatchResult.netError nm e) ∈ (dlGo rb pick nArch step fuel pool).attempts := by
  intro fuel
  induction fuel with
  | zero =>
    intro step pool hlen _ m hm
    cases pool with
    | nil => exact absurd hm (List.not_mem_nil m)
    | cons m0 rest => simp at hlen
  | succ fuel ih =>
    intro step pool hlen hall m hm
    cases pool with
    | nil => exact absurd hm (List.not_mem_nil m)
    | cons m0 rest =>
      rcases hall (chooseMirror pick step m0 rest) (chooseMirror_mem pick step m0 rest)
        with ⟨nm, e, hrb⟩
      simp only [dlGo, hrb]
      by_cases hmc : m = chooseMirror pick step m0 rest
      · exact ⟨nm, e, by rw [hmc]; exact List.mem_cons_self _ _⟩
      · have hmem' : m ∈ (m0 :: rest).erase (chooseMirror pick step m0 rest) :=
          (List.mem_erase_of_ne hmc).mpr hm
        have herase : ((m0 :: rest).erase (chooseMirror pick step m0 rest)).length + 1 =
            (m0 :: rest).length :=
          List.length_erase_add_one (chooseMirror_mem pick step m0 rest)
        have hle : ((m0 :: rest).erase (chooseMirror pick step m0 rest)).length ≤ fuel := by
          simp only [List.length_cons] at herase hlen
          omega
        rcases ih (step + 1) ((m0 :: rest).erase (chooseMirror pick step m0 rest)) hle
          (fun m' hm' => hall m' (List.mem_of_mem_erase hm')) m hmem' with ⟨nm', e', hin⟩
        exact ⟨nm', e', List.mem_cons_of_mem _ hin⟩

/-! ## C1 -/

/-- C1 (amended): whenever the batch run against the chosen mirror
raises `HashMismathError` (the batch's surfaced failure is the hash
mismatch -- in particular whenever the mismatching task is the only
failing task of the batch), `download_archives` re-raises exactly that
error immediately: that attempt is the final one (no remaining mirror
is ever attempted), the current mirror is NOT removed from the pool,
and exactly the earlier network-failed mirrors are excluded. The claim
as literally stated -- for ANY per-archive task raising
`HashMismathError` -- does not hold: if another task's network failure
surfaces first in the same batch, the executor re-raises that network
error instead and failover proceeds (see the race counterexample). -/
theorem download_archives_mismatch_fatal (rb : String → BatchResult) (pick : Nat → Nat)
    (nArch : Nat) (mirrors : List String) (k : Nat) (m e : String)
    (h : (download_archives rb pick nArch mirrors).attempts.get? k =
      some (m, BatchResult.hashMismath e)) :
    (download_archives rb pick nArch mirrors).outcome = .mismatchRaised e ∧
    (download_archives rb pick nArch mirrors).attempts.length = k + 1 ∧
    m ∈ (download_archives rb pick nArch mirrors).finalPool ∧
    (download_archives rb pick nArch mirrors).finalPool.length + k = mirrors.length ∧
    ((download_archives rb pick nArch mirrors).finalPool).Sublist mirrors := by
  unfold download_archives at h ⊢
  rcases dlGo_mismatch rb pick nArch mirrors.length 0 mirrors k m e h with ⟨a, b, c, d⟩
  exact ⟨a, b, c, d, dlGo_sublist rb pick nArch mirrors.length 0 mirrors⟩

theorem download_archives_mismatch_fatal_witness :
    (download_archives
      (runBatchOf (R := Unit) (fun mm =>
        if mm = "https://m1.example" then
          [⟨1, .error (.otherError "URLError" "timed out")⟩]
        else [⟨1, .error (.hashMismath "boom")⟩]) (mkRat 5 1) (mkRat 10 1))
      (fun _ => 0) 1 ["https://m1.example", "https://m2.example"]).attempts.get? 1 =
      some ("https://m2.example", BatchResult.hashMismath "boom") ∧
    (download_archives
      (runBatchOf (R := Unit) (fun mm =>
        if mm = "https://m1.example" then
          [⟨1, .error (.otherError "URLError" "timed out")⟩]
        else [⟨1, .error (.hashMismath "boom")⟩]) (mkRat 5 1) (mkRat 10 1))
      (fun _ => 0) 1 ["https://m1.example", "https://m2.example"]).outcome =
      .mismatchRaised "boom" ∧
    "https://m2.example" ∈ (download_archives
      (runBatchOf (R := Unit) (fun mm =>
        if mm = "https://m1.example" then
          [⟨1, .error (.otherError "URLError" "timed out")⟩]
        else [⟨1, .error (.hashMismath "boom")⟩]) (mkRat 5 1) (mkRat 10 1))
      (fun _ => 0) 1 ["https://m1.example", "https://m2.example"]).finalPool ∧
    (download_archives
      (runBatchOf (R := Unit) (fun mm =>
        if mm = "https://m1.example" then
          [⟨1, .error (.otherError "URLError" "timed out")⟩]
        else [⟨1, .error (.hashMismath "boom")⟩]) (mkRat 5 1) (mkRat 10 1))
      (fun _ => 0) 1 ["https://m1.example", "https://m2.example"]).attempts.length = 1 + 1 := by
  have h : (download_archives
      (runBatchOf (R := Unit) (fun mm =>
        if mm = "https://m1.example" then
          [⟨1, .error (.otherError "URLError" "timed out")⟩]
        else [⟨1, .error (.hashMismath "boom")⟩]) (mkRat 5 1) (mkRat 10 1))
      (fun _ => 0) 1 ["https://m1.example", "https://m2.example"]).attempts.get? 1 =
      some ("https://m2.example", BatchResult.hashMismath "boom") := by decide
  have H := download_archives_mismatch_fatal _ _ 1 _ 1 "https://m2.example" "boom" h
  exact ⟨h, H.1, H.2.2.1, H.2.1⟩

/-- C1 counterexample (timing race): in one batch for mirror 1, task 0
fails with a network error and task 1 raises `HashMismathError`, both
ready at the same poll. The executor re-raises the first ready failure
in task order -- the network error -- so `download_archives` removes
mirror 1 and succeeds on mirror 2, even though a per-archive task of
the batch raised `HashMismathError`: the error is not re-raised, the
mirror is removed, and a remaining mirror is attempted. -/
theorem download_archives_mismatch_race_cex :
    (⟨1, Except.error (DLErr.hashMismath "boom")⟩ : TaskSpec DLErr Unit) ∈
      (fun mm => if mm = "https://m1.example" then
          [(⟨1, .error (.otherError "URLError" "timed out")⟩ : TaskSpec DLErr Unit),
           ⟨1, .error (.hashMismath "boom")⟩]
        else [⟨1, .ok ()⟩, ⟨1, .ok ()⟩]) "https://m1.example" ∧
    (download_archives
      (runBatchOf (R := Unit) (fun mm =>
        if mm = "https://m1.example" then
          [⟨1, .error (.otherError "URLError" "timed out")⟩,
           ⟨1, .error (.hashMismath "boom")⟩]
        else [⟨1, .ok ()⟩, ⟨1, .ok ()⟩]) (mkRat 5 1) (mkRat 10 1))
      (fun _ => 0) 2 ["https://m1.example", "https://m2.example"]).outcome =
      .success "https://m2.example" ∧
    (download_archives
      (runBatchOf (R := Unit) (fun mm =>
        if mm = "https://m1.example" then
          [⟨1, .error (.otherError "URLError" "timed out")⟩,
           ⟨1, .error (.hashMismath "boom")⟩]
        else [⟨1, .ok ()⟩, ⟨1, .ok ()⟩]) (mkRat 5 1) (mkRat 10 1))
      (fun _ => 0) 2 ["https://m1.example", "https://m2.example"]).finalPool =
      ["https://m2.example"] ∧
    (download_archives
      (runBatchOf (R := Unit) (fun mm =>
        if mm = "https://m1.example" then
          [⟨1, .error (.otherError "URLError" "timed out")⟩,
           ⟨1, .error (.hashMismath "boom")⟩]
        else [⟨1, .ok ()⟩, ⟨1, .ok ()⟩]) (mkRat 5 1) (mkRat 10 1))
      (fun _ => 0) 2 ["https://m1.example", "https://m2.example"]).attempts.length = 2 :=
  ⟨by decide, by decide, by decide, by decide⟩

/-! ## C4 -/

/-- C4: within one `download_archives` invocation over distinct mirrors
the pool only loses elements (the final pool is a sublist of the
initial one -- never refilled); a removed mirror is never chosen again
(the attempted mirrors are pairwise distinct); a mirror of the pool
remains in the final pool exactly when no batch on it failed with a
network-class error (each such failure removes exactly the chosen
mirror); every attempt before the last is a network-class failure; and
when the run returns normally the last attempt is the successful
mirror, with exactly `attempts - 1` mirrors excluded. -/
theorem download_archives_pool_monotone (rb : String → BatchResult) (pick : Nat → Nat)
    (nArch : Nat) (mirrors : List String) (hnd : mirrors.Nodup) :
    ((download_archives rb pick nArch mirrors).finalPool).Sublist mirrors ∧
    (((download_archives rb pick nArch mirrors).attempts.map Prod.fst).Nodup) ∧
    (∀ m, m ∈ mirrors →
      (m ∈ (download_archives rb pick nArch mirrors).finalPool ↔
        ∀ nm e, (m, BatchResult.netError nm e) ∉
          (download_archives rb pick nArch mirrors).attempts)) ∧
    (∀ i, i + 1 < (download_archives rb pick nArch mirrors).attempts.length →
      ∃ m nm e, (download_archives rb pick nArch mirrors).attempts.get? i =
        some (m, BatchResult.netError nm e)) ∧
    (∀ m, (download_archives rb pick nArch mirrors).outcome = .success m →
      (download_archives rb pick nArch mirrors).attempts.getLast? =
        some (m, BatchResult.ok) ∧
      1 ≤ (download_archives rb pick nArch mirrors).attempts.length ∧
      (download_archives rb pick nArch mirrors).finalPool.length +
        ((download_archives rb pick nArch mirrors).attempts.length - 1) = mirrors.length ∧
      m ∈ (download_archives rb pick nArch mirrors).finalPool) := by
  unfold download_archives
  exact ⟨dlGo_sublist rb pick nArch mirrors.length 0 mirrors,
    dlGo_attempts_nodup rb pick nArch mirrors.length 0 mirrors hnd,
    fun m hm => dlGo_finalPool_mem_iff rb pick nArch mirrors.length 0 mirrors hnd m hm,
    fun i hi => dlGo_prefix_netError rb pick nArch mirrors.length 0 mirrors i hi,
    fun m hm => dlGo_success rb pick nArch mirrors.length 0 mirrors m hm⟩

theorem download_archives_pool_monotone_witness :
    (["https://m1.example", "https://m2.example", "https://m3.example"] :
      List String).Nodup ∧
    (download_archives
      (fun mm => if mm = "https://m1.example" then BatchResult.netError "URLError" "down"
        else BatchResult.ok)
      (fun _ => 0) 1
      ["https://m1.example", "https://m2.example", "https://m3.example"]).outcome =
      .success "https://m2.example" ∧
    (download_archives
      (fun mm => if mm = "https://m1.example" then BatchResult.netError "URLError" "down"
        else BatchResult.ok)
      (fun _ => 0) 1
      ["https://m1.example", "https://m2.example", "https://m3.example"]).attempts.getLast? =
      some ("https://m2.example", BatchResult.ok) ∧
    (download_archives
      (fun mm => if mm = "https://m1.example" then BatchResult.netError "URLError" "down"
        else BatchResult.ok)
      (fun _ => 0) 1
      ["https://m1.example", "https://m2.example", "https://m3.example"]).finalPool.length +
      ((download_archives
        (fun mm => if mm = "https://m1.example" then BatchResult.netError "URLError" "down"
          else BatchResult.ok)
        (fun _ => 0) 1
        ["https://m1.example", "https://m2.example", "https://m3.example"]).attempts.length - 1)
      = 3 ∧
    ("https://m1.example" ∈ (download_archives
      (fun mm => if mm = "https://m1.example" then BatchResult.netError "URLError" "down"
        else BatchResult.ok)
      (fun _ => 0) 1
      ["https://m1.example", "https://m2.example", "https://m3.example"]).finalPool ↔
      ∀ nm e, ("https://m1.example", BatchResult.netError nm e) ∉
        (download_archives
          (fun mm => if mm = "https://m1.example" then BatchResult.netError "URLError" "down"
            else BatchResult.ok)
          (fun _ => 0) 1
          ["https://m1.example", "https://m2.example", "https://m3.example"]).attempts) := by
  have hnd : (["https://m1.example", "https://m2.example", "https://m3.example"] :
      List String).Nodup := by decide
  have H := download_archives_pool_monotone
    (fun mm => if mm = "https://m1.example" then BatchResult.netError "URLError" "down"
      else BatchResult.ok)
    (fun _ => 0) 1 ["https://m1.example", "https://m2.example", "https://m3.example"] hnd
  have hsucc : (download_archives
      (fun mm => if mm = "https://m1.example" then BatchResult.netError "URLError" "down"
        else BatchResult.ok)
      (fun _ => 0) 1
      ["https://m1.example", "https://m2.example", "https://m3.example"]).outcome =
      .success "https://m2.example" := by decide
  rcases H.2.2.2.2 "https://m2.example" hsucc with ⟨w1, _, w3, _⟩
  exact ⟨hnd, hsucc, w1, w3, H.2.2.1 "https://m1.example" (by decide)⟩

/-! ## C5 -/

/-- C5 (amended): when every mirror of the pool fails with a
network-class error, `download_archives` terminates fatally via
`sys.exit` with the FIXED message `All mirrors unreachable.` -- the
final error does not itself list the tried mirrors. The pool ends
empty, every mirror was tried (one batch attempt per pool entry, all
failing with network-class errors), and each tried mirror is named in a
`Failed to fetch an archive from ...` line printed when it was
excluded, which is where the run reports which mirrors were tried. -/
theorem download_archives_exhaust (rb : String → BatchResult) (pick : Nat → Nat)
    (nArch : Nat) (mirrors : List String)
    (hall : ∀ m ∈ mirrors, ∃ nm e, rb m = BatchResult.netError nm e) :
    (download_archives rb pick nArch mirrors).outcome =
      .exited "All mirrors unreachable." ∧
    (download_archives rb pick nArch mirrors).finalPool = [] ∧
    (download_archives rb pick nArch mirrors).attempts.length = mirrors.length ∧
    (∀ p ∈ (download_archives rb pick nArch mirrors).attempts,
      ∃ nm e, p.2 = BatchResult.netError nm e) ∧
    (∀ m ∈ mirrors, ∃ nm e,
      (m, BatchResult.netError nm e) ∈ (download_archives rb pick nArch mirrors).attempts) ∧
    (∀ m nm e, (m, BatchResult.netError nm e) ∈
        (download_archives rb pick nArch mirrors).attempts →
      failLine nm e m ∈ (download_archives rb pick nArch mirrors).printed) := by
  unfold download_archives
  rcases dlGo_exhaust rb pick nArch mirrors.length 0 mirrors (Nat.le_refl _) hall
    with ⟨a, b, c, d⟩
  exact ⟨a, b, c, d,
    dlGo_exhaust_complete rb pick nArch mirrors.length 0 mirrors (Nat.le_refl _) hall,
    fun m nm e hm => dlGo_printed_failLine rb pick nArch mirrors.length 0 mirrors m nm e hm⟩

theorem download_archives_exhaust_witness :
    (∀ m ∈ (["https://m1.example", "https://m2.example"] : List String), ∃ nm e,
      (fun mm => BatchResult.netError "URLError" ("down " ++ mm)) m =
        BatchResult.netError nm e) ∧
    (download_archives (fun mm => BatchResult.netError "URLError" ("down " ++ mm))
      (fun _ => 0) 1 ["https://m1.example", "https://m2.example"]).outcome =
      .exited "All mirrors unreachable." ∧
    (download_archives (fun mm => BatchResult.netError "URLError" ("down " ++ mm))
      (fun _ => 0) 1 ["https://m1.example", "https://m2.example"]).finalPool = [] ∧
    (download_archives (fun mm => BatchResult.netError "URLError" ("down " ++ mm))
      (fun _ => 0) 1 ["https://m1.example", "https://m2.example"]).attempts.length = 2 := by
  have hall : ∀ m ∈ (["https://m1.example", "https://m2.example"] : List String), ∃ nm e,
      (fun mm => BatchResult.netError "URLError" ("down " ++ mm)) m =
        BatchResult.netError nm e :=
    fun m _ => ⟨"URLError", "down " ++ m, rfl⟩
  have H := download_archives_exhaust
    (fun mm => BatchResult.netError "URLError" ("down " ++ mm)) (fun _ => 0) 1
    ["https://m1.example", "https://m2.example"] hall
  exact ⟨hall, H.1, H.2.1, H.2.2.1⟩

/-- C5 counterexample: the fatal exit message is the constant string
`All mirrors unreachable.` -- it is identical for runs over different
mirror pools and does not contain the tried mirror's name, so the
raised error does not list which mirrors were tried. -/
theorem download_archives_exit_message_cex :
    (download_archives (fun _ => BatchResult.netError "URLError" "timed out") (fun _ => 0) 1
      ["https://mirror-one.example"]).outcome = .exited "All mirrors unreachable." ∧
    strHasSub "mirror-one" "All mirrors unreachable." = false ∧
    (download_archives (fun _ => BatchResult.netError "URLError" "timed out") (fun _ => 0) 1
      ["https://mirror-two.example"]).outcome = .exited "All mirrors unreachable." ∧
    failLine "URLError" "timed out" "https://mirror-one.example" ∈
      (download_archives (fun _ => BatchResult.netError "URLError" "timed out") (fun _ => 0) 1
        ["https://mirror-one.example"]).printed :=
  ⟨by decide, by decide, by decide, by decide⟩

/-! ## C6 -/

theorem countReady_ok_of_allOk {E R : Type} (tasks : List (TaskSpec E R))
    (hall : ∀ task ∈ tasks, ∃ r, task.outcome = Except.ok r) :
    ∀ t, ∃ k, countReady tasks t = .ok k := by
  induction tasks with
  | nil => intro t; exact ⟨0, rfl⟩
  | cons task rest ih =>
    intro t
    rcases hall task (List.mem_cons_self task rest) with ⟨r, hr⟩
    have hall' : ∀ task ∈ rest, ∃ r, task.outcome = Except.ok r :=
      fun task ht => hall task (List.mem_cons_of_mem _ ht)
    rcases ih hall' t with ⟨k, hk⟩
    unfold countReady
    by_cases hf : task.finish ≤ t
    · rw [if_pos hf, hr, hk]
      exact ⟨k + 1, rfl⟩
    · rw [if_neg hf]
      exact ⟨k, hk⟩

theorem countReady_full {E R : Type} (tasks : List (TaskSpec E R))
    (hall : ∀ task ∈ tasks, ∃ r, task.outcome = Except.ok r) :
    ∀ t, maxFinish tasks ≤ t → countReady tasks t = .ok tasks.length := by
  induction tasks with
  | nil => intro t _; rfl
  | cons task rest ih =>
    intro t ht
    rcases hall task (List.mem_cons_self task rest) with ⟨r, hr⟩
    have hall' : ∀ task ∈ rest, ∃ r, task.outcome = Except.ok r :=
      fun task hh => hall task (List.mem_cons_of_mem _ hh)
    have hmax : max task.finish (maxFinish rest) ≤ t := ht
    unfold countReady
    rw [if_pos (le_trans (le_max_left _ _) hmax), hr,
      ih hall' t (le_trans (le_max_right _ _) hmax)]
    rfl

theorem poolLoop_completes {E R : Type} (tasks : List (TaskSpec E R)) (pd : ℚ)
    (hall : ∀ task ∈ tasks, ∃ r, task.outcome = Except.ok r) :
    ∀ fuel t since prevReady,
    maxFinish tasks + 1 ≤ t + fuel →
    ((t = 0 ∧ prevReady = 0) ∨ countReady tasks t = .ok prevReady) →
    (poolLoop tasks pd fuel t since prevReady).2 = .completed := by
  intro fuel
  induction fuel with
  | zero =>
    intro t since prevReady hfuel hinv
    rw [poolLoop]
    by_cases hlt : prevReady < tasks.length
    · exfalso
      rcases hinv with ⟨ht, _⟩ | hcr
      · omega
      · have hfull := countReady_full tasks hall t (by omega)
        rw [hfull] at hcr
        have : tasks.length = prevReady := Except.ok.inj hcr
        omega
    · rw [if_neg hlt]
  | succ fuel ih =>
    intro t since prevReady hfuel hinv
    rw [poolLoop]
    by_cases hlt : prevReady < tasks.length
    · rw [if_pos hlt]
      rcases countReady_ok_of_allOk tasks hall (t + 1) with ⟨ready, hready⟩
      simp only [hready]
      by_cases hp : pd ≤ mkRat (Int.ofNat (since + 1)) 4
      · rw [if_pos hp]
        exact ih (t + 1) 0 ready (by omega) (Or.inr hready)
      · rw [if_neg hp]
        exact ih (t + 1) (since + 1) ready (by omega) (Or.inr hready)
    · rw [if_neg hlt]

theorem mapM_ok_map {E R : Type} (specs : List (Nat × R)) :
    (specs.map (fun p => (⟨p.1, Except.ok p.2⟩ : TaskSpec E R))).mapM TaskSpec.outcome =
      .ok (specs.map Prod.snd) := by
  induction specs with
  | nil => rfl
  | cons p ps ih =>
    rw [List.map_cons, List.mapM_cons, List.map_cons]
    rw [ih]
    rfl

/-- C6: for every task list whose tasks all complete successfully (here
built from a list of pairs of an arbitrary finish tick and a result),
`pool_apply` returns the result list of the same length whose i-th
element is the result of the i-th input task, in input order, for every
assignment of completion ticks (completion order is irrelevant) and
any worker count and print delay. -/
theorem pool_apply_order (E R : Type) (specs : List (Nat × R)) (workersRaw pd : ℚ) :
    (pool_apply (specs.map (fun p => (⟨p.1, Except.ok p.2⟩ : TaskSpec E R)))
      workersRaw pd).result = some (.ok (specs.map Prod.snd)) := by
  have hall : ∀ task ∈ specs.map (fun p => (⟨p.1, Except.ok p.2⟩ : TaskSpec E R)),
      ∃ r, task.outcome = Except.ok r := by
    intro task ht
    rcases List.mem_map.mp ht with ⟨p, _, rfl⟩
    exact ⟨p.2, rfl⟩
  have hc := poolLoop_completes (specs.map (fun p => (⟨p.1, Except.ok p.2⟩ : TaskSpec E R)))
    pd hall (maxFinish (specs.map (fun p => (⟨p.1, Except.ok p.2⟩ : TaskSpec E R))) + 1)
    0 0 0 (by omega) (Or.inl ⟨rfl, rfl⟩)
  unfold pool_apply
  dsimp only
  rw [hc]
  dsimp only
  rw [mapM_ok_map]
